import Mathlib

/-!
Verification of the `codesample` matrix library (`matrix.h`) against its
natural-language specification.

The C++ class `matrix<T>` holds
  `std::vector<std::vector<T>> _data;`  (row-major element store) and
  `std::list<matrix<T>> _cache;`        (memoized transpose, at most one entry).
We embed a matrix object as the pair of those two fields.  Every matrix ever
stored in `_cache` is freshly built inside `transpose()` and therefore carries
an empty cache of its own, so the cache is embedded as a list of element
stores (`List (List (List α))`) rather than a recursive type.

Machine integers: all the sizes involved are `size_t` values far below
overflow (list lengths), so they are embedded as `Nat`.
The element type `T` is embedded as a type `α` with `Add`, `Mul`, a default
value (`T()` value-initialization, `Inhabited.default`), and decidable
equality where `operator==` on `T` is used.

C++ exceptions are embedded as `Except MErr`.  The source throws
`invalid_dimension` (the spec's DimensionMismatch), `std::out_of_range` from
`vector::at` (the spec's IndexOutOfRange), and `std::out_of_range` with the
message "Can't multiply matrix of size 0!" from `multiply` (the spec's
EmptyOperand); the three are distinguished here as separate constructors.
Reading or writing `_data[i]` / `row[j]` through the *unchecked*
`vector::operator[]` with an out-of-range index is undefined behavior in the
source; where a claim can reach such an access we model the read as
`List.getD _ _ default` (an arbitrary but fixed value) and, for the mutable
row accessor, record the out-of-range case as the distinguished
`MErr.undefinedBehavior` outcome, which is *not* a raised exception.
-/

namespace codesample

/-- The error kinds of the library, as in spec section 7:
`dimMismatch` is `invalid_dimension(s1, s2)` carrying both vector sizes,
`emptyOperand` is the `std::out_of_range` thrown at the top of `multiply`,
`indexOutOfRange` is the `std::out_of_range` thrown by `vector::at`, and
`undefinedBehavior` marks an out-of-range unchecked `vector::operator[]`
access (which raises nothing in the source). -/
inductive MErr where
  | indexOutOfRange : MErr
  | emptyOperand : MErr
  | dimMismatch : Nat → Nat → MErr
  | undefinedBehavior : MErr
deriving DecidableEq

/-- `dot(v1, v2)` from matrix.h: throws `invalid_dimension(v1.size(), v2.size())`
when the sizes differ, else sums `v1.at(i) * v2.at(i)` left-to-right into a
`T result = T()` accumulator.  All `at` calls are in range because `i` stays
below both (equal) sizes, so `getD` reads the true elements. -/
def dot {α : Type} [Inhabited α] [Add α] [Mul α] (v1 v2 : List α) : Except MErr α :=
  if v1.length ≠ v2.length then
    .error (.dimMismatch v1.length v2.length)
  else
    .ok ((List.range v1.length).foldl
      (fun result i => result + (v1.getD i default) * (v2.getD i default)) default)

/-- The value computed by `dot` when the lengths agree: the left-to-right
indexed sum of elementwise products, starting from the additive identity
`T()` (embedded as `default`). -/
def dotVal {α : Type} [Inhabited α] [Add α] [Mul α] (v1 v2 : List α) : α :=
  (List.range v1.length).foldl
    (fun result i => result + (v1.getD i default) * (v2.getD i default)) default

/-- The state of a `matrix<T>` object: its `_data` and `_cache` fields. -/
structure matrix (α : Type) where
  _data : List (List α)
  _cache : List (List (List α))
deriving DecidableEq

namespace matrix

variable {α : Type}

/-- `rows()`: `_data.size()`. -/
def rows (m : matrix α) : Nat := m._data.length

/-- `cols()`: `_data.size() > 0 ? _data.at(0).size() : 0`. -/
def cols (m : matrix α) : Nat :=
  if m._data.length > 0 then (m._data.headD []).length else 0

/-- The element store built by the transpose loops: `m_T` starts as a
`cols() × rows()` matrix filled with `T()`, then every cell `(i, j)` with
`i < _data.at(0).size()` and `j < _data.size()` is overwritten with
`_data[j][i]`; those bounds cover every cell of `m_T`, so the result is
exactly the doubly indexed table below.  For a ragged store, the source's
read `_data[j][i]` can be out of range (undefined behavior), modelled as
`default`. -/
def transposeData [Inhabited α] (d : List (List α)) : List (List α) :=
  (List.range (d.headD []).length).map (fun i =>
    (List.range d.length).map (fun j => (d.getD j []).getD i default))

/-- `transpose()`: returns the cached front if `_cache.size() > 0`; else if
`_data.size() > 0` computes the transpose, pushes it on the cache and returns
the cache front; else returns `*this`.  The result is the pair
(updated `*this`, returned matrix).  The returned matrix value carries an
empty cache: in the compute branch it was freshly constructed, and in the
cache-hit branch every matrix stored in `_cache` was itself created that way. -/
def transpose [Inhabited α] (m : matrix α) : matrix α × matrix α :=
  if m._cache.length > 0 then
    (m, ⟨m._cache.headD [], []⟩)
  else if m._data.length > 0 then
    (⟨m._data, transposeData m._data :: m._cache⟩, ⟨transposeData m._data, []⟩)
  else
    (m, m)

/-- The const `operator[]`: `return _data.at(i);` — `vector::at` throws
`std::out_of_range` when `i >= _data.size()`, and does not touch the cache. -/
def atRow (m : matrix α) (i : Nat) : Except MErr (List α) :=
  match m._data.get? i with
  | some r => .ok r
  | none => .error .indexOutOfRange

/-- The non-const `operator[]`: `_cache.clear(); return _data[i];`.
The cache is cleared unconditionally; the row is then read through the
*unchecked* `vector::operator[]`, so `i >= _data.size()` is undefined
behavior (no exception is thrown), recorded as `.undefinedBehavior`. -/
def atMutRow (m : matrix α) (i : Nat) : matrix α × Except MErr (List α) :=
  (⟨m._data, []⟩,
   match m._data.get? i with
   | some r => .ok r
   | none => .error .undefinedBehavior)

/-- A caller-side row mutation `m[i] = r` through the non-const
`operator[]`: the access clears the cache, then the returned reference is
assigned the new row vector.  (For `i >= rows()` the source is undefined
behavior; `List.set` leaves the store unchanged there, and no claim uses
that case.) -/
def setRow (m : matrix α) (i : Nat) (r : List α) : matrix α :=
  ⟨m._data.set i r, []⟩

/-- The inner `for (j ...)` loop of `multiply` for a fixed row index `i`,
iterating over the list of column indices `js`.  Each iteration evaluates
`result[i][j] = dot(m1[i], m2.transpose()[j])`:
`m1[i]` goes through the non-const `operator[]` and clears `m1`'s cache;
`m2.transpose()` updates `m2`'s cache and returns the transpose by value;
`[j]` on that temporary is the unchecked read of its row `j` (in range in
every reachable call, modelled with `getD`).  A `dot` failure propagates out
with the states as mutated so far; on success the computed cell is collected.
Returns (row cells or error, final `m1`, final `m2`). -/
def mulRowGo [Inhabited α] [Add α] [Mul α] (m1 m2 : matrix α) (i : Nat) :
    List Nat → Except MErr (List α) × matrix α × matrix α
  | [] => (.ok [], m1, m2)
  | j :: js =>
    let m1' : matrix α := ⟨m1._data, []⟩
    let p := transpose m2
    match dot (m1'._data.getD i []) (p.2._data.getD j []) with
    | .error e => (.error e, m1', p.1)
    | .ok v =>
      match mulRowGo m1' p.1 i js with
      | (.error e, a, b) => (.error e, a, b)
      | (.ok vs, a, b) => (.ok (v :: vs), a, b)

/-- The outer `for (i ...)` loop of `multiply` over the list of row indices
`is`, with `jn = m2.cols()` column indices per row.  The `result` matrix of
the source starts as an `m1.rows() × m2.cols()` default-filled matrix whose
every cell the loops assign exactly once in order, so collecting the rows as
they are produced builds the same store; on an error the partial result is
discarded, as in the source where the exception destroys the local. -/
def mulGo [Inhabited α] [Add α] [Mul α] (m1 m2 : matrix α) (jn : Nat) :
    List Nat → Except MErr (List (List α)) × matrix α × matrix α
  | [] => (.ok [], m1, m2)
  | i :: is =>
    match mulRowGo m1 m2 i (List.range jn) with
    | (.error e, a, b) => (.error e, a, b)
    | (.ok row, a, b) =>
      match mulGo a b jn is with
      | (.error e, a', b') => (.error e, a', b')
      | (.ok rws, a', b') => (.ok (row :: rws), a', b')

/-- `static matrix<T> multiply(matrix<T> &m1, matrix<T> &m2)`: throws the
EmptyOperand error when `m1.rows() == 0 || m2.rows() == 0`, before anything
else; otherwise runs the two loops.  Returns (result store or error, final
`m1`, final `m2`); a successful result is a fresh matrix with empty cache. -/
def multiply [Inhabited α] [Add α] [Mul α] (m1 m2 : matrix α) :
    Except MErr (List (List α)) × matrix α × matrix α :=
  if m1.rows = 0 ∨ m2.rows = 0 then
    (.error .emptyOperand, m1, m2)
  else
    mulGo m1 m2 m2.cols (List.range m1.rows)

/-- `operator!=`: `true` when the shapes differ, else a scan for some cell
`(i, j)` with `_data[i][j] != rhs[i][j]` (early-returning `true` at the
first mismatch, i.e. an `any`).  It reads `_data` directly and reads `rhs`
through the const `operator[]`; neither operand's cache is read or written,
which is why this embedding takes no state and returns none. -/
def ne [Inhabited α] [DecidableEq α] (m rhs : matrix α) : Bool :=
  if m.rows ≠ rhs.rows ∨ m.cols ≠ rhs.cols then
    true
  else
    (List.range m.rows).any (fun i =>
      (List.range m.cols).any (fun j =>
        decide ((m._data.getD i []).getD j default ≠ (rhs._data.getD i []).getD j default)))

/-- `operator==`: `return !(*this != rhs);`. -/
def eq [Inhabited α] [DecidableEq α] (m rhs : matrix α) : Bool := !(ne m rhs)

/-- `print(out)`: the inner loop `out << item << " "` over one row, threaded
through a textual sink modelled as an accumulated `String`; `render` embeds
`operator<<` on `T`. -/
def printRowStr (render : α → String) (row : List α) (acc : String) : String :=
  row.foldl (fun a item => a ++ render item ++ " ") acc

/-- `print(out)`: for every row, the inner loop followed by
`out << std::endl` (a newline). -/
def printStr (render : α → String) (m : matrix α) (acc : String) : String :=
  m._data.foldl (fun a row => printRowStr render row a ++ "\n") acc

end matrix

/-- The rectangularity invariant of spec section 3: every row of the store
has the same length as the first one (vacuous for an empty store). -/
def Rect (d : List (List α)) : Prop := ∀ r ∈ d, r.length = (d.headD []).length

/-- The cache-freshness invariant of spec section 3: every entry of `_cache`
(at most one is ever present) equals the true transpose of the current
element store. -/
def CacheFresh {α : Type} [Inhabited α] (m : matrix α) : Prop :=
  ∀ c ∈ m._cache, c = matrix.transposeData m._data

/-- Column `j` of a store: the `j`-th entry of every row in order (the
reference description of `m2.transpose().column(j)` in the spec). -/
def column {α : Type} [Inhabited α] (d : List (List α)) (j : Nat) : List α :=
  d.map (fun r => r.getD j default)

instance {ε σ : Type} [DecidableEq ε] [DecidableEq σ] : DecidableEq (Except ε σ) := fun a b =>
  match a, b with
  | .error e1, .error e2 =>
    match decEq e1 e2 with
    | isTrue h => isTrue (by rw [h])
    | isFalse h => isFalse (fun hh => h (by cases hh; rfl))
  | .ok v1, .ok v2 =>
    match decEq v1 v2 with
    | isTrue h => isTrue (by rw [h])
    | isFalse h => isFalse (fun hh => h (by cases hh; rfl))
  | .error _, .ok _ => isFalse (fun hh => by cases hh)
  | .ok _, .error _ => isFalse (fun hh => by cases hh)

instance {α : Type} (d : List (List α)) : Decidable (Rect d) :=
  inferInstanceAs (Decidable (∀ r ∈ d, r.length = (d.headD []).length))

instance {α : Type} [Inhabited α] [DecidableEq α] (m : matrix α) : Decidable (CacheFresh m) :=
  inferInstanceAs (Decidable (∀ c ∈ m._cache, c = matrix.transposeData m._data))

/-! ### Helper lemmas -/

theorem getD_range_map {β : Type} (f : Nat → β) (e : β) {k n : Nat} (hk : k < n) :
    ((List.range n).map f).getD k e = f k := by
  simp [List.getD_eq_getElem?_getD, List.getElem?_map, List.getElem?_range hk]

theorem range_map_getD {β γ : Type} (d : List β) (g : β → γ) (e : β) :
    (List.range d.length).map (fun k => g (d.getD k e)) = d.map g := by
  induction d with
  | nil => rfl
  | cons x xs ih =>
    rw [List.length_cons, List.range_succ_eq_map, List.map_cons, List.map_map]
    have hcong : ((fun k => g ((x :: xs).getD k e)) ∘ Nat.succ) = (fun k => g (xs.getD k e)) := by
      funext k
      rfl
    rw [hcong, ih]
    rfl

theorem getD_map_lt {β γ : Type} (d : List β) (g : β → γ) (e : β) (e' : γ) {i : Nat}
    (hi : i < d.length) :
    (d.map g).getD i e' = g (d.getD i e) := by
  simp [List.getD_eq_getElem?_getD, List.getElem?_map, List.getElem?_eq_getElem hi]

theorem getD_eq_of_length {α : Type} (r : List α) {n : Nat} (e : α) (h : r.length = n) :
    (List.range n).map (fun j => r.getD j e) = r := by
  subst h
  simpa using range_map_getD r id e

theorem matrix_ext {α : Type} (a b : matrix α) (h1 : a._data = b._data)
    (h2 : a._cache = b._cache) : a = b := by
  cases a; cases b; cases h1; cases h2; rfl

theorem cols_eq_headD {α : Type} (m : matrix α) : m.cols = (m._data.headD []).length := by
  unfold matrix.cols
  cases hd : m._data with
  | nil => simp
  | cons r rs => simp

theorem transposeData_nil {α : Type} [Inhabited α] :
    matrix.transposeData ([] : List (List α)) = [] := rfl

theorem transposeData_length {α : Type} [Inhabited α] (d : List (List α)) :
    (matrix.transposeData d).length = (d.headD []).length := by
  simp [matrix.transposeData]

theorem transposeData_getD {α : Type} [Inhabited α] (d : List (List α)) {j : Nat}
    (hj : j < (d.headD []).length) :
    (matrix.transposeData d).getD j [] =
      (List.range d.length).map (fun k => (d.getD k []).getD j default) :=
  getD_range_map _ _ hj

theorem transposeData_getD_column {α : Type} [Inhabited α] (d : List (List α)) {j : Nat}
    (hj : j < (d.headD []).length) :
    (matrix.transposeData d).getD j [] = column d j := by
  rw [transposeData_getD d hj]
  exact range_map_getD d (fun r => r.getD j default) []

theorem column_length {α : Type} [Inhabited α] (d : List (List α)) (j : Nat) :
    (column d j).length = d.length := by
  simp [column]

theorem transpose_fst_data {α : Type} [Inhabited α] (m : matrix α) :
    (matrix.transpose m).1._data = m._data := by
  unfold matrix.transpose
  split
  · rfl
  split
  · rfl
  rfl

theorem transpose_snd_cache {α : Type} [Inhabited α] (m : matrix α) :
    (matrix.transpose m).2._cache = [] := by
  unfold matrix.transpose
  split
  · rfl
  split
  · rfl
  next h1 _ =>
    have : m._cache = [] := List.length_eq_zero.mp (by omega)
    simpa using this

theorem transpose_fst_cacheFresh {α : Type} [Inhabited α] (m : matrix α)
    (h : CacheFresh m) : CacheFresh (matrix.transpose m).1 := by
  unfold matrix.transpose
  split
  · exact h
  split
  · intro c hc
    rcases List.mem_cons.mp hc with hc1 | hc2
    · simpa using hc1
    · simpa using h c hc2
  exact h

theorem transpose_snd_data_of_fresh {α : Type} [Inhabited α] (m : matrix α)
    (h : CacheFresh m) :
    (matrix.transpose m).2._data = matrix.transposeData m._data := by
  unfold matrix.transpose
  split
  · next h1 =>
    have hmem : m._cache.headD [] ∈ m._cache := by
      cases hc : m._cache with
      | nil => rw [hc] at h1; simp at h1
      | cons a l => simp
    simpa using h (m._cache.headD []) hmem
  split
  · rfl
  next _ h2 =>
    have : m._data = [] := List.length_eq_zero.mp (by omega)
    simp [this, matrix.transposeData]

theorem transpose_snd_of_fresh {α : Type} [Inhabited α] (m : matrix α)
    (h : CacheFresh m) (hd : m._data ≠ []) :
    (matrix.transpose m).2 = ⟨matrix.transposeData m._data, []⟩ := by
  refine matrix_ext _ _ ?_ ?_
  · exact transpose_snd_data_of_fresh m h
  · unfold matrix.transpose
    split
    · rfl
    split
    · rfl
    next _ h2 =>
      exact absurd (List.length_eq_zero.mp (by omega)) hd

theorem transpose_fst_idem {α : Type} [Inhabited α] (m : matrix α) :
    (matrix.transpose (matrix.transpose m).1).1 = (matrix.transpose m).1 := by
  rcases m with ⟨d, c⟩
  cases c with
  | cons a l => simp [matrix.transpose]
  | nil =>
    cases d with
    | nil => simp [matrix.transpose]
    | cons r rs => simp [matrix.transpose]

theorem transpose_fst_cache_ne_nil {α : Type} [Inhabited α] (m : matrix α)
    (h : m._data ≠ []) : (matrix.transpose m).1._cache ≠ [] := by
  rcases m with ⟨d, c⟩
  cases c with
  | cons a l => simp [matrix.transpose]
  | nil =>
    cases d with
    | nil => simp at h
    | cons r rs => simp [matrix.transpose]

/-! ### Unfolding equations and state lemmas for the multiply loops -/

theorem mulRowGo_nil {α : Type} [Inhabited α] [Add α] [Mul α] (m1 m2 : matrix α) (i : Nat) :
    matrix.mulRowGo m1 m2 i [] = (.ok [], m1, m2) := rfl

theorem mulRowGo_cons {α : Type} [Inhabited α] [Add α] [Mul α] (m1 m2 : matrix α)
    (i j : Nat) (js : List Nat) :
    matrix.mulRowGo m1 m2 i (j :: js) =
      match dot (m1._data.getD i []) ((matrix.transpose m2).2._data.getD j []) with
      | .error e => (.error e, ⟨m1._data, []⟩, (matrix.transpose m2).1)
      | .ok v =>
        match matrix.mulRowGo ⟨m1._data, []⟩ (matrix.transpose m2).1 i js with
        | (.error e, a, b) => (.error e, a, b)
        | (.ok vs, a, b) => (.ok (v :: vs), a, b) := rfl

theorem mulGo_nil {α : Type} [Inhabited α] [Add α] [Mul α] (m1 m2 : matrix α) (jn : Nat) :
    matrix.mulGo m1 m2 jn [] = (.ok [], m1, m2) := rfl

theorem mulGo_cons {α : Type} [Inhabited α] [Add α] [Mul α] (m1 m2 : matrix α)
    (jn i : Nat) (is : List Nat) :
    matrix.mulGo m1 m2 jn (i :: is) =
      match matrix.mulRowGo m1 m2 i (List.range jn) with
      | (.error e, a, b) => (.error e, a, b)
      | (.ok row, a, b) =>
        match matrix.mulGo a b jn is with
        | (.error e, a', b') => (.error e, a', b')
        | (.ok rws, a', b') => (.ok (row :: rws), a', b') := rfl

theorem mulRowGo_cons_err {α : Type} [Inhabited α] [Add α] [Mul α] (m1 m2 : matrix α)
    (i j : Nat) (js : List Nat) (e : MErr)
    (hd : dot (m1._data.getD i []) ((matrix.transpose m2).2._data.getD j []) = .error e) :
    matrix.mulRowGo m1 m2 i (j :: js) = (.error e, ⟨m1._data, []⟩, (matrix.transpose m2).1) := by
  rw [mulRowGo_cons, hd]

theorem mulRowGo_cons_ok_err {α : Type} [Inhabited α] [Add α] [Mul α] (m1 m2 a b : matrix α)
    (i j : Nat) (js : List Nat) (v : α) (e : MErr)
    (hd : dot (m1._data.getD i []) ((matrix.transpose m2).2._data.getD j []) = .ok v)
    (hrec : matrix.mulRowGo ⟨m1._data, []⟩ (matrix.transpose m2).1 i js = (.error e, a, b)) :
    matrix.mulRowGo m1 m2 i (j :: js) = (.error e, a, b) := by
  rw [mulRowGo_cons, hd, hrec]

theorem mulRowGo_cons_ok_ok {α : Type} [Inhabited α] [Add α] [Mul α] (m1 m2 a b : matrix α)
    (i j : Nat) (js : List Nat) (v : α) (vs : List α)
    (hd : dot (m1._data.getD i []) ((matrix.transpose m2).2._data.getD j []) = .ok v)
    (hrec : matrix.mulRowGo ⟨m1._data, []⟩ (matrix.transpose m2).1 i js = (.ok vs, a, b)) :
    matrix.mulRowGo m1 m2 i (j :: js) = (.ok (v :: vs), a, b) := by
  rw [mulRowGo_cons, hd, hrec]

theorem mulGo_cons_err {α : Type} [Inhabited α] [Add α] [Mul α] (m1 m2 a b : matrix α)
    (jn i : Nat) (is : List Nat) (e : MErr)
    (hrow : matrix.mulRowGo m1 m2 i (List.range jn) = (.error e, a, b)) :
    matrix.mulGo m1 m2 jn (i :: is) = (.error e, a, b) := by
  rw [mulGo_cons, hrow]

theorem mulGo_cons_ok_err {α : Type} [Inhabited α] [Add α] [Mul α]
    (m1 m2 a b a2 b2 : matrix α) (jn i : Nat) (is : List Nat) (row : List α) (e : MErr)
    (hrow : matrix.mulRowGo m1 m2 i (List.range jn) = (.ok row, a, b))
    (hrec : matrix.mulGo a b jn is = (.error e, a2, b2)) :
    matrix.mulGo m1 m2 jn (i :: is) = (.error e, a2, b2) := by
  rw [mulGo_cons, hrow]
  dsimp only
  rw [hrec]

theorem mulGo_cons_ok_ok {α : Type} [Inhabited α] [Add α] [Mul α]
    (m1 m2 a b a2 b2 : matrix α) (jn i : Nat) (is : List Nat) (row : List α)
    (rws : List (List α))
    (hrow : matrix.mulRowGo m1 m2 i (List.range jn) = (.ok row, a, b))
    (hrec : matrix.mulGo a b jn is = (.ok rws, a2, b2)) :
    matrix.mulGo m1 m2 jn (i :: is) = (.ok (row :: rws), a2, b2) := by
  rw [mulGo_cons, hrow]
  dsimp only
  rw [hrec]

theorem mulRowGo_states {α : Type} [Inhabited α] [Add α] [Mul α] (m1 m2 : matrix α)
    (i : Nat) (js : List Nat) :
    js ≠ [] →
    (matrix.mulRowGo m1 m2 i js).2 = (⟨m1._data, []⟩, (matrix.transpose m2).1) := by
  induction js generalizing m1 m2 with
  | nil => intro h; exact absurd rfl h
  | cons j rest ih =>
    intro _
    cases hd : dot (m1._data.getD i []) ((matrix.transpose m2).2._data.getD j []) with
    | error e => rw [mulRowGo_cons_err m1 m2 i j rest e hd]
    | ok v =>
      by_cases hr : rest = []
      · subst hr
        rw [mulRowGo_cons_ok_ok m1 m2 ⟨m1._data, []⟩ (matrix.transpose m2).1 i j [] v []
          hd (mulRowGo_nil _ _ _)]
      · have hrec := ih ⟨m1._data, []⟩ (matrix.transpose m2).1 hr
        rw [transpose_fst_idem] at hrec
        rcases hm : matrix.mulRowGo ⟨m1._data, []⟩ (matrix.transpose m2).1 i rest
          with ⟨res, a, b⟩
        rw [hm] at hrec
        have ha : a = (⟨m1._data, []⟩ : matrix α) := congrArg Prod.fst hrec
        have hb : b = (matrix.transpose m2).1 := congrArg Prod.snd hrec
        cases res with
        | error e2 =>
          rw [mulRowGo_cons_ok_err m1 m2 a b i j rest v e2 hd hm, ha, hb]
        | ok vs =>
          rw [mulRowGo_cons_ok_ok m1 m2 a b i j rest v vs hd hm, ha, hb]

theorem mulRowGo_states_facts {α : Type} [Inhabited α] [Add α] [Mul α] (m1 m2 : matrix α)
    (i : Nat) (js : List Nat) (h2 : CacheFresh m2) :
    (matrix.mulRowGo m1 m2 i js).2.1._data = m1._data ∧
    (matrix.mulRowGo m1 m2 i js).2.2._data = m2._data ∧
    CacheFresh (matrix.mulRowGo m1 m2 i js).2.2 := by
  by_cases h : js = []
  · subst h
    exact ⟨rfl, rfl, h2⟩
  · rw [mulRowGo_states m1 m2 i js h]
    exact ⟨rfl, transpose_fst_data m2, transpose_fst_cacheFresh m2 h2⟩

theorem mulGo_states {α : Type} [Inhabited α] [Add α] [Mul α] (m1 m2 : matrix α)
    (jn : Nat) (is : List Nat) :
    (matrix.mulGo m1 m2 jn is).2 =
      if is = [] ∨ jn = 0 then (m1, m2)
      else (⟨m1._data, []⟩, (matrix.transpose m2).1) := by
  induction is generalizing m1 m2 with
  | nil => simp [mulGo_nil]
  | cons i rest ih =>
    by_cases hj : jn = 0
    · subst hj
      rw [if_pos (Or.inr rfl)]
      rcases hm : matrix.mulGo m1 m2 0 rest with ⟨res, a, b⟩
      have ihm := ih m1 m2
      rw [hm, if_pos (Or.inr rfl)] at ihm
      have ha : a = m1 := congrArg Prod.fst ihm
      have hb : b = m2 := congrArg Prod.snd ihm
      cases res with
      | error e =>
        rw [mulGo_cons_ok_err m1 m2 m1 m2 a b 0 i rest [] e
          (by rw [show List.range 0 = [] from rfl]; exact mulRowGo_nil _ _ _) hm, ha, hb]
      | ok rws =>
        rw [mulGo_cons_ok_ok m1 m2 m1 m2 a b 0 i rest [] rws
          (by rw [show List.range 0 = [] from rfl]; exact mulRowGo_nil _ _ _) hm, ha, hb]
    · rw [if_neg (by rintro (hcon | hcon); exacts [List.cons_ne_nil i rest hcon, hj hcon])]
      have hne : List.range jn ≠ [] := by
        intro hcon
        exact hj (by simpa using congrArg List.length hcon)
      have hrow := mulRowGo_states m1 m2 i (List.range jn) hne
      rcases hr : matrix.mulRowGo m1 m2 i (List.range jn) with ⟨res, a, b⟩
      rw [hr] at hrow
      have ha : a = (⟨m1._data, []⟩ : matrix α) := congrArg Prod.fst hrow
      have hb : b = (matrix.transpose m2).1 := congrArg Prod.snd hrow
      cases res with
      | error e =>
        rw [mulGo_cons_err m1 m2 a b jn i rest e hr, ha, hb]
      | ok row =>
        rcases hm : matrix.mulGo a b jn rest with ⟨res2, a2, b2⟩
        have ihm := ih a b
        rw [hm] at ihm
        have ha2 : a2 = (⟨m1._data, []⟩ : matrix α) := by
          by_cases hrest : rest = []
          · rw [if_pos (Or.inl hrest)] at ihm
            exact (congrArg Prod.fst ihm).trans ha
          · rw [if_neg (by rintro (hcon | hcon); exacts [hrest hcon, hj hcon])] at ihm
            exact (congrArg Prod.fst ihm).trans (by rw [ha])
        have hb2 : b2 = (matrix.transpose m2).1 := by
          by_cases hrest : rest = []
          · rw [if_pos (Or.inl hrest)] at ihm
            exact (congrArg Prod.snd ihm).trans hb
          · rw [if_neg (by rintro (hcon | hcon); exacts [hrest hcon, hj hcon])] at ihm
            exact (congrArg Prod.snd ihm).trans (by rw [hb, transpose_fst_idem])
        cases res2 with
        | error e2 =>
          rw [mulGo_cons_ok_err m1 m2 a b a2 b2 jn i rest row e2 hr hm, ha2, hb2]
        | ok rws2 =>
          rw [mulGo_cons_ok_ok m1 m2 a b a2 b2 jn i rest row rws2 hr hm, ha2, hb2]

/-! ### Value and error-kind lemmas -/

theorem dot_ok {α : Type} [Inhabited α] [Add α] [Mul α] (v1 v2 : List α)
    (h : v1.length = v2.length) : dot v1 v2 = .ok (dotVal v1 v2) := by
  simp [dot, dotVal, h]

theorem dot_error_kind {α : Type} [Inhabited α] [Add α] [Mul α] (v1 v2 : List α) (e : MErr)
    (h : dot v1 v2 = .error e) : e = .dimMismatch v1.length v2.length := by
  unfold dot at h
  split at h
  · exact (Except.error.inj h).symm
  · exact Except.noConfusion h

theorem rowZero_length {α : Type} (m : matrix α) (h : 0 < m.rows) :
    (m._data.getD 0 []).length = m.cols := by
  rcases hm : m._data with _ | ⟨r, rs⟩
  · rw [matrix.rows, hm] at h
    simp at h
  · simp [matrix.cols, hm]

theorem row_length_of_rect {α : Type} (m : matrix α) (hr : Rect m._data) {i : Nat}
    (hi : i < m.rows) : (m._data.getD i []).length = m.cols := by
  have hmem : m._data.getD i [] ∈ m._data := by
    rw [List.getD_eq_getElem?_getD, List.getElem?_eq_getElem hi]
    exact List.getElem_mem hi
  rw [hr _ hmem, cols_eq_headD]

theorem transposeData_row_length {α : Type} [Inhabited α] (d : List (List α)) {j : Nat}
    (hj : j < (d.headD []).length) :
    ((matrix.transposeData d).getD j []).length = d.length := by
  rw [transposeData_getD_column d hj, column_length]

theorem mulRowGo_ok {α : Type} [Inhabited α] [Add α] [Mul α] (m1 m2 : matrix α) (i : Nat)
    (js : List Nat) (h2 : CacheFresh m2)
    (hlen : ∀ j ∈ js, (m1._data.getD i []).length =
      ((matrix.transposeData m2._data).getD j []).length) :
    (matrix.mulRowGo m1 m2 i js).1 =
      .ok (js.map (fun j => dotVal (m1._data.getD i [])
        ((matrix.transposeData m2._data).getD j []))) := by
  induction js generalizing m1 m2 with
  | nil => rfl
  | cons j rest ih =>
    have htm : (matrix.transpose m2).2._data = matrix.transposeData m2._data :=
      transpose_snd_data_of_fresh m2 h2
    have hdata : (matrix.transpose m2).1._data = m2._data := transpose_fst_data m2
    have hd : dot (m1._data.getD i []) ((matrix.transpose m2).2._data.getD j []) =
        .ok (dotVal (m1._data.getD i []) ((matrix.transposeData m2._data).getD j [])) := by
      rw [htm]
      exact dot_ok _ _ (hlen j (List.mem_cons_self j rest))
    have ihx := ih ⟨m1._data, []⟩ (matrix.transpose m2).1 (transpose_fst_cacheFresh m2 h2)
      (by
        simp only [hdata]
        exact fun j2 hj2 => hlen j2 (List.mem_cons_of_mem _ hj2))
    simp only [hdata] at ihx
    rcases hm : matrix.mulRowGo ⟨m1._data, []⟩ (matrix.transpose m2).1 i rest with ⟨res, a, b⟩
    rw [hm] at ihx
    have hres : res = .ok (rest.map (fun j2 => dotVal (m1._data.getD i [])
        ((matrix.transposeData m2._data).getD j2 []))) := ihx
    subst hres
    rw [mulRowGo_cons_ok_ok m1 m2 a b i j rest _ _ hd hm]
    rfl

theorem mulGo_ok {α : Type} [Inhabited α] [Add α] [Mul α] (m1 m2 : matrix α)
    (jn : Nat) (is : List Nat) (h2 : CacheFresh m2)
    (hlen : ∀ i2 ∈ is, ∀ j, j < jn → (m1._data.getD i2 []).length =
      ((matrix.transposeData m2._data).getD j []).length) :
    (matrix.mulGo m1 m2 jn is).1 =
      .ok (is.map (fun i2 => (List.range jn).map (fun j =>
        dotVal (m1._data.getD i2 []) ((matrix.transposeData m2._data).getD j [])))) := by
  induction is generalizing m1 m2 with
  | nil => rfl
  | cons i rest ih =>
    have hrowval := mulRowGo_ok m1 m2 i (List.range jn) h2
      (fun j hj => hlen i (List.mem_cons_self i rest) j (List.mem_range.mp hj))
    rcases hr : matrix.mulRowGo m1 m2 i (List.range jn) with ⟨res, a, b⟩
    rw [hr] at hrowval
    have hres : res = .ok ((List.range jn).map (fun j => dotVal (m1._data.getD i [])
        ((matrix.transposeData m2._data).getD j []))) := hrowval
    subst hres
    have hf := mulRowGo_states_facts m1 m2 i (List.range jn) h2
    rw [hr] at hf
    obtain ⟨hfa, hfb, hfc⟩ := hf
    have hfa2 : a._data = m1._data := hfa
    have hfb2 : b._data = m2._data := hfb
    have hfc2 : CacheFresh b := hfc
    have ihx := ih a b hfc2
      (by
        simp only [hfa2, hfb2]
        exact fun i2 hi2 j hj => hlen i2 (List.mem_cons_of_mem _ hi2) j hj)
    simp only [hfa2, hfb2] at ihx
    rcases hm : matrix.mulGo a b jn rest with ⟨res2, a2, b2⟩
    rw [hm] at ihx
    have hres2 : res2 = .ok (rest.map (fun i2 => (List.range jn).map (fun j =>
        dotVal (m1._data.getD i2 []) ((matrix.transposeData m2._data).getD j [])))) := ihx
    subst hres2
    rw [mulGo_cons_ok_ok m1 m2 a b a2 b2 jn i rest _ _ hr hm]
    rfl

theorem mulRowGo_fst_dimMismatch {α : Type} [Inhabited α] [Add α] [Mul α]
    (m1 m2 : matrix α) (i : Nat) (js : List Nat) (e : MErr)
    (h : (matrix.mulRowGo m1 m2 i js).1 = .error e) :
    ∃ s1 s2, e = .dimMismatch s1 s2 := by
  induction js generalizing m1 m2 e with
  | nil => exact Except.noConfusion h
  | cons j rest ih =>
    cases hd : dot (m1._data.getD i []) ((matrix.transpose m2).2._data.getD j []) with
    | error e2 =>
      rw [mulRowGo_cons_err m1 m2 i j rest e2 hd] at h
      have he : e2 = e := Except.error.inj h
      subst he
      exact ⟨_, _, dot_error_kind _ _ _ hd⟩
    | ok v =>
      rcases hm : matrix.mulRowGo ⟨m1._data, []⟩ (matrix.transpose m2).1 i rest
        with ⟨res, a, b⟩
      cases res with
      | error e2 =>
        rw [mulRowGo_cons_ok_err m1 m2 a b i j rest v e2 hd hm] at h
        have he : e2 = e := Except.error.inj h
        subst he
        exact ih ⟨m1._data, []⟩ (matrix.transpose m2).1 e2 (by rw [hm])
      | ok vs =>
        rw [mulRowGo_cons_ok_ok m1 m2 a b i j rest v vs hd hm] at h
        exact Except.noConfusion h

theorem mulGo_fst_dimMismatch {α : Type} [Inhabited α] [Add α] [Mul α]
    (m1 m2 : matrix α) (jn : Nat) (is : List Nat) (e : MErr)
    (h : (matrix.mulGo m1 m2 jn is).1 = .error e) :
    ∃ s1 s2, e = .dimMismatch s1 s2 := by
  induction is generalizing m1 m2 e with
  | nil => exact Except.noConfusion h
  | cons i rest ih =>
    rcases hr : matrix.mulRowGo m1 m2 i (List.range jn) with ⟨res, a, b⟩
    cases res with
    | error e2 =>
      rw [mulGo_cons_err m1 m2 a b jn i rest e2 hr] at h
      have he : e2 = e := Except.error.inj h
      subst he
      exact mulRowGo_fst_dimMismatch m1 m2 i (List.range jn) e2 (by rw [hr])
    | ok row =>
      rcases hm : matrix.mulGo a b jn rest with ⟨res2, a2, b2⟩
      cases res2 with
      | error e2 =>
        rw [mulGo_cons_ok_err m1 m2 a b a2 b2 jn i rest row e2 hr hm] at h
        have he : e2 = e := Except.error.inj h
        subst he
        exact ih a b e2 (by rw [hm])
      | ok rws =>
        rw [mulGo_cons_ok_ok m1 m2 a b a2 b2 jn i rest row rws hr hm] at h
        exact Except.noConfusion h

/-! ### Further helper lemmas -/

theorem getD_mem_of_lt {α : Type} (d : List α) (e : α) {i : Nat} (hi : i < d.length) :
    d.getD i e ∈ d := by
  rw [List.getD_eq_getElem?_getD, List.getElem?_eq_getElem hi]
  exact List.getElem_mem hi

theorem headD_eq_getD_zero {α : Type} (d : List α) (e : α) : d.headD e = d.getD 0 e := by
  cases d <;> simp

theorem transposeData_head_length {α : Type} [Inhabited α] (d : List (List α))
    (h : 0 < (d.headD []).length) :
    ((matrix.transposeData d).headD []).length = d.length := by
  rw [headD_eq_getD_zero, transposeData_getD_column d h, column_length]

theorem matrix_eq_of_data {α : Type} [Inhabited α] [DecidableEq α] (a b : matrix α)
    (h : a._data = b._data) : matrix.eq a b = true := by
  have hrows : a.rows = b.rows := by unfold matrix.rows; rw [h]
  have hcols : a.cols = b.cols := by rw [cols_eq_headD, cols_eq_headD, h]
  unfold matrix.eq matrix.ne
  rw [if_neg (by rw [hrows, hcols]; simp)]
  rw [h]
  simp

theorem transposeData_involutive {α : Type} [Inhabited α] (d : List (List α))
    (hrect : Rect d) (hcols : 0 < (d.headD []).length) :
    matrix.transposeData (matrix.transposeData d) = d := by
  have hhead : ((matrix.transposeData d).headD []).length = d.length :=
    transposeData_head_length d hcols
  have step1 : matrix.transposeData (matrix.transposeData d) =
      (List.range d.length).map (fun i => (List.range (matrix.transposeData d).length).map
        (fun j => ((matrix.transposeData d).getD j []).getD i default)) := by
    rw [show matrix.transposeData (matrix.transposeData d) =
      (List.range ((matrix.transposeData d).headD []).length).map (fun i =>
        (List.range (matrix.transposeData d).length).map
          (fun j => ((matrix.transposeData d).getD j []).getD i default)) from rfl, hhead]
  rw [step1, transposeData_length]
  have hrow : ∀ i ∈ List.range d.length,
      (List.range (d.headD []).length).map
        (fun j => ((matrix.transposeData d).getD j []).getD i default) = d.getD i [] := by
    intro i hi
    have hi2 : i < d.length := List.mem_range.mp hi
    have hcell : ∀ j ∈ List.range (d.headD []).length,
        ((matrix.transposeData d).getD j []).getD i default =
          (d.getD i []).getD j default := by
      intro j hj
      have hj2 : j < (d.headD []).length := List.mem_range.mp hj
      rw [transposeData_getD_column d hj2]
      simp only [column]
      exact getD_map_lt d _ [] default hi2
    rw [List.map_congr_left hcell]
    exact getD_eq_of_length (d.getD i []) default
      (hrect _ (getD_mem_of_lt d [] hi2))
  rw [List.map_congr_left hrow]
  exact getD_eq_of_length d [] rfl

theorem atMutRow_snd {α : Type} (m : matrix α) (i : Nat) :
    (matrix.atMutRow m i).2 = (match m._data.get? i with
      | some r => (.ok r : Except MErr (List α))
      | none => .error .undefinedBehavior) := rfl

/-! ### Claims -/

/-- C1, counterexample: for the rectangular, cache-fresh matrix `{{}}`
(one row, zero columns), `transpose()` returns the empty matrix, whose
`cols()` is 0 and not `rows() == 1` as the claim requires. -/
theorem c1_counterexample :
    (matrix.transpose (matrix.mk ([[]] : List (List Int)) [])).2.cols = 0 ∧
    (matrix.mk ([[]] : List (List Int)) []).rows = 1 ∧
    Rect ([[]] : List (List Int)) ∧
    CacheFresh (matrix.mk ([[]] : List (List Int)) []) := by
  decide

/-- C1 (amended): for every rectangular, cache-fresh matrix `M`,
`transpose()` returns `M_T` with `M_T.rows() == M.cols()` and
`M_T[j][i] == M[i][j]` for all `i < M.rows()`, `j < M.cols()`;
`M_T.cols() == M.rows()` holds whenever `M.cols() > 0` or `M.rows() == 0`
(for `M.rows() > 0` with `M.cols() == 0` the transpose is the empty matrix,
so `M_T.cols()` is 0). -/
theorem c1_transpose_contract {α : Type} [Inhabited α] (m : matrix α)
    (hrect : Rect m._data) (hfresh : CacheFresh m) :
    (matrix.transpose m).2.rows = m.cols ∧
    (0 < m.cols ∨ m.rows = 0 → (matrix.transpose m).2.cols = m.rows) ∧
    (∀ i, i < m.rows → ∀ j, j < m.cols →
      ((matrix.transpose m).2._data.getD j []).getD i default =
        (m._data.getD i []).getD j default) := by
  have hval : (matrix.transpose m).2._data = matrix.transposeData m._data :=
    transpose_snd_data_of_fresh m hfresh
  refine ⟨?_, ?_, ?_⟩
  · rw [matrix.rows, hval, transposeData_length, ← cols_eq_headD]
  · intro hcase
    rcases hcase with hpos | hzero
    · rw [matrix.cols, hval, transposeData_length]
      rw [if_pos (by rw [← cols_eq_headD]; exact hpos)]
      rw [transposeData_head_length m._data (by rw [← cols_eq_headD]; exact hpos)]
      rfl
    · have hd0 : m._data = [] := List.length_eq_zero.mp hzero
      rw [matrix.cols, hval, hd0, transposeData_nil]
      simpa using hzero.symm
  · intro i hi j hj
    have hj2 : j < (m._data.headD []).length := by
      rw [← cols_eq_headD]; exact hj
    rw [hval, transposeData_getD_column m._data hj2]
    simp only [column]
    exact getD_map_lt m._data _ [] default hi

/-- C1 witness: the amended contract applied to the concrete 2×2 matrix
`{{1,2},{3,4}}` gives a transpose with 2 columns. -/
theorem c1_transpose_contract_witness :
    (matrix.transpose (matrix.mk ([[1,2],[3,4]] : List (List Int)) [])).2.cols = 2 := by
  have h := c1_transpose_contract (matrix.mk ([[1,2],[3,4]] : List (List Int)) [])
    (by decide) (by decide)
  exact (h.2.1 (Or.inl (by decide))).trans (by decide)

/-- C2: cache-freshness invariant.  `transpose()` preserves freshness and
leaves the element data unchanged; the mutable accessor unconditionally
clears the cache; a row mutation through it leaves a fresh (empty) cache;
`multiply` preserves freshness of both operands; and the concrete scenario:
after `transpose()`, a row mutation through the mutable accessor, and
`transpose()` again, the second result is the true transpose of the mutated
data. -/
theorem c2_cache_freshness {α : Type} [Inhabited α] [Add α] [Mul α] :
    (∀ m : matrix α, CacheFresh m →
      CacheFresh (matrix.transpose m).1 ∧ (matrix.transpose m).1._data = m._data) ∧
    (∀ (m : matrix α) (i : Nat), (matrix.atMutRow m i).1._cache = []) ∧
    (∀ (m : matrix α) (i : Nat) (r : List α), CacheFresh (matrix.setRow m i r)) ∧
    (∀ m1 m2 : matrix α, CacheFresh m1 → CacheFresh m2 →
      CacheFresh (matrix.multiply m1 m2).2.1 ∧ CacheFresh (matrix.multiply m1 m2).2.2) ∧
    (∀ (m : matrix α) (i : Nat) (r : List α),
      (matrix.transpose (matrix.setRow ((matrix.transpose m).1) i r)).2._data =
        matrix.transposeData (m._data.set i r)) := by
  refine ⟨?_, ?_, ?_, ?_, ?_⟩
  · intro m h
    exact ⟨transpose_fst_cacheFresh m h, transpose_fst_data m⟩
  · intro m i
    rfl
  · intro m i r c hc
    exact absurd hc (List.not_mem_nil c)
  · intro m1 m2 h1 h2
    unfold matrix.multiply
    split
    · exact ⟨h1, h2⟩
    · have hs := mulGo_states m1 m2 m2.cols (List.range m1.rows)
      constructor
      · rw [hs]
        split
        · exact h1
        · intro c hc
          exact absurd hc (List.not_mem_nil c)
      · rw [hs]
        split
        · exact h2
        · exact transpose_fst_cacheFresh m2 h2
  · intro m i r
    rw [show matrix.setRow ((matrix.transpose m).1) i r =
      ⟨((matrix.transpose m).1)._data.set i r, []⟩ from rfl, transpose_fst_data]
    exact transpose_snd_data_of_fresh _ (fun c hc => absurd hc (List.not_mem_nil c))

/-- C2 witness: transpose `{{1,2,3}}`, overwrite row 0 with `{10,2,3}`
through the mutable accessor, transpose again: the result reflects the
mutation. -/
theorem c2_cache_freshness_witness :
    (matrix.transpose (matrix.setRow
      ((matrix.transpose (matrix.mk ([[1,2,3]] : List (List Int)) [])).1) 0 [10,2,3])).2._data
      = [[10],[2],[3]] := by
  have h := (c2_cache_freshness (α := Int)).2.2.2.2 (matrix.mk [[1,2,3]] []) 0 [10,2,3]
  exact h.trans (by decide)

/-- C4, counterexample: on the 1×1 matrix `{{1}}` with out-of-range index 1,
the mutable accessor performs no bounds check — the source reads `_data[1]`
through the unchecked `vector::operator[]`, which is undefined behavior and
raises nothing, so no IndexOutOfRange error is produced. -/
theorem c4_counterexample :
    (matrix.atMutRow (matrix.mk ([[1]] : List (List Int)) []) 1).2
      = .error .undefinedBehavior ∧
    MErr.undefinedBehavior ≠ MErr.indexOutOfRange ∧
    (matrix.mk ([[1]] : List (List Int)) []).rows ≤ 1 := by
  decide

/-- C4 (amended): immutable row access raises IndexOutOfRange exactly when
`i >= rows()` and returns the row otherwise; mutable row access performs no
bounds check, so for `i >= rows()` it is undefined behavior rather than a
raised out-of-range error, and it can never produce an IndexOutOfRange
error. -/
theorem c4_row_access {α : Type} (m : matrix α) (i : Nat) :
    (m.rows ≤ i → matrix.atRow m i = .error .indexOutOfRange) ∧
    (i < m.rows → matrix.atRow m i = .ok (m._data.getD i [])) ∧
    ((matrix.atMutRow m i).2 = .error .undefinedBehavior ↔ m.rows ≤ i) ∧
    (∀ e : MErr, (matrix.atMutRow m i).2 = .error e → e = .undefinedBehavior) := by
  refine ⟨?_, ?_, ?_, ?_⟩
  · intro h
    unfold matrix.atRow
    rw [List.get?_eq_none.mpr h]
  · intro h
    unfold matrix.atRow
    rw [List.get?_eq_getElem?, List.getElem?_eq_getElem h,
      List.getD_eq_getElem?_getD, List.getElem?_eq_getElem h]
    rfl
  · constructor
    · intro h
      by_contra hc
      push_neg at hc
      rw [atMutRow_snd, List.get?_eq_getElem?, List.getElem?_eq_getElem hc] at h
      exact Except.noConfusion h
    · intro h
      rw [atMutRow_snd, List.get?_eq_none.mpr h]
  · intro e he
    rcases hg : m._data.get? i with _ | r
    · rw [atMutRow_snd, hg] at he
      exact (Except.error.inj he).symm
    · rw [atMutRow_snd, hg] at he
      exact Except.noConfusion he

/-- C4 witness: on `{{1}}` with index 3, immutable access raises
IndexOutOfRange. -/
theorem c4_row_access_witness :
    matrix.atRow (matrix.mk ([[1]] : List (List Int)) []) 3 = .error .indexOutOfRange :=
  (c4_row_access (matrix.mk ([[1]] : List (List Int)) []) 3).1 (by decide)

/-- C7, counterexample: the rectangular, cache-fresh matrix `{{}}` has
`rows() == 1 > 0`, yet `transpose().transpose()` is the empty matrix, which
`operator==` reports as different from `{{}}`. -/
theorem c7_counterexample :
    matrix.eq
      ((matrix.transpose ((matrix.transpose (matrix.mk ([[]] : List (List Int)) [])).2)).2)
      (matrix.mk ([[]] : List (List Int)) []) = false ∧
    0 < (matrix.mk ([[]] : List (List Int)) []).rows ∧
    Rect ([[]] : List (List Int)) ∧
    CacheFresh (matrix.mk ([[]] : List (List Int)) []) := by
  decide

/-- C7 (amended): transpose is an involution (up to `operator==`) on
rectangular cache-fresh matrices with at least one row and at least one
column, and the empty matrix is its own transpose directly; for matrices
with rows but zero columns the double transpose degenerates to the empty
matrix (see the counterexample). -/
theorem c7_transpose_involution {α : Type} [Inhabited α] [DecidableEq α] :
    (∀ m : matrix α, Rect m._data → CacheFresh m → 0 < m.rows → 0 < m.cols →
      matrix.eq ((matrix.transpose ((matrix.transpose m).2)).2) m = true) ∧
    (matrix.transpose (matrix.mk ([] : List (List α)) [])).2 = matrix.mk [] [] := by
  constructor
  · intro m hrect hfresh hrows hcols
    have hd : m._data ≠ [] := by
      intro hcon
      rw [matrix.rows, hcon] at hrows
      simp at hrows
    have h1 : (matrix.transpose m).2 = ⟨matrix.transposeData m._data, []⟩ :=
      transpose_snd_of_fresh m hfresh hd
    have hlen : 0 < (matrix.transposeData m._data).length := by
      rw [transposeData_length, ← cols_eq_headD]
      exact hcols
    have hne2 : matrix.transposeData m._data ≠ [] := by
      intro hcon
      rw [hcon] at hlen
      simp at hlen
    have h2 : (matrix.transpose (⟨matrix.transposeData m._data, []⟩ : matrix α)).2 =
        ⟨matrix.transposeData (matrix.transposeData m._data), []⟩ :=
      transpose_snd_of_fresh _ (fun c hc => absurd hc (List.not_mem_nil c)) hne2
    rw [h1, h2, transposeData_involutive m._data hrect (by rw [← cols_eq_headD]; exact hcols)]
    exact matrix_eq_of_data _ _ rfl
  · rfl

/-- C7 witness: double transpose of the concrete 2×3 matrix
`{{1,2,3},{4,5,6}}` compares equal to the original. -/
theorem c7_transpose_involution_witness :
    matrix.eq
      ((matrix.transpose ((matrix.transpose
        (matrix.mk ([[1,2,3],[4,5,6]] : List (List Int)) [])).2)).2)
      (matrix.mk ([[1,2,3],[4,5,6]] : List (List Int)) []) = true :=
  (c7_transpose_involution (α := Int)).1 _ (by decide) (by decide) (by decide) (by decide)

/-- C5: `multiply` raises the EmptyOperand error exactly when an operand has
zero rows, and in that case it returns immediately, before any computation,
with both operands unchanged (the returned triple carries `m1` and `m2`
exactly as passed). -/
theorem c5_multiply_empty {α : Type} [Inhabited α] [Add α] [Mul α] (m1 m2 : matrix α) :
    ((matrix.multiply m1 m2).1 = .error .emptyOperand ↔ m1.rows = 0 ∨ m2.rows = 0) ∧
    (m1.rows = 0 ∨ m2.rows = 0 →
      matrix.multiply m1 m2 = (.error .emptyOperand, m1, m2)) := by
  constructor
  · constructor
    · intro h
      by_contra hc
      unfold matrix.multiply at h
      rw [if_neg hc] at h
      obtain ⟨s1, s2, hk⟩ := mulGo_fst_dimMismatch m1 m2 m2.cols (List.range m1.rows) _ h
      exact MErr.noConfusion hk
    · intro h
      unfold matrix.multiply
      rw [if_pos h]
  · intro h
    unfold matrix.multiply
    rw [if_pos h]

/-- C5 witness: multiplying the empty matrix by `{{1}}` raises EmptyOperand
with both operands returned untouched. -/
theorem c5_multiply_empty_witness :
    matrix.multiply (matrix.mk ([] : List (List Int)) []) (matrix.mk [[1]] [])
      = (.error .emptyOperand, matrix.mk [] [], matrix.mk [[1]] []) :=
  (c5_multiply_empty _ _).2 (Or.inl (by decide))

/-- C3: for rectangular operands with positive row counts, compatible inner
dimensions and a fresh `m2` cache, `multiply` succeeds with an
`m1.rows() × m2.cols()` result whose cell `(i, j)` is the left-to-right
indexed sum, from `T()`, of products of row `i` of `m1` with column `j` of
`m2` (`dotVal`). -/
theorem c3_multiply_correct {α : Type} [Inhabited α] [Add α] [Mul α] (m1 m2 : matrix α)
    (hr1 : Rect m1._data) (hr2 : Rect m2._data)
    (h1 : 0 < m1.rows) (h2 : 0 < m2.rows) (hc : m1.cols = m2.rows)
    (hf : CacheFresh m2) :
    ∃ res : List (List α),
      (matrix.multiply m1 m2).1 = .ok res ∧
      res.length = m1.rows ∧
      (∀ r ∈ res, r.length = m2.cols) ∧
      (matrix.mk res ([] : List (List (List α)))).rows = m1.rows ∧
      (matrix.mk res ([] : List (List (List α)))).cols = m2.cols ∧
      (∀ i, i < m1.rows → ∀ j, j < m2.cols →
        (res.getD i []).getD j default =
          dotVal (m1._data.getD i []) (column m2._data j)) := by
  have hlen : ∀ i2 ∈ List.range m1.rows, ∀ j, j < m2.cols →
      (m1._data.getD i2 []).length = ((matrix.transposeData m2._data).getD j []).length := by
    intro i2 hi2 j hj
    rw [row_length_of_rect m1 hr1 (List.mem_range.mp hi2)]
    rw [transposeData_row_length m2._data (by rw [← cols_eq_headD]; exact hj)]
    exact hc
  have hok := mulGo_ok m1 m2 m2.cols (List.range m1.rows) hf hlen
  refine ⟨(List.range m1.rows).map (fun i2 => (List.range m2.cols).map (fun j =>
    dotVal (m1._data.getD i2 []) ((matrix.transposeData m2._data).getD j []))),
    ?_, ?_, ?_, ?_, ?_, ?_⟩
  · unfold matrix.multiply
    rw [if_neg (by rintro (hcon | hcon) <;> omega)]
    exact hok
  · simp [matrix.rows]
  · intro r hr
    obtain ⟨i2, hi2, hfr⟩ := List.mem_map.mp hr
    rw [← hfr]
    simp
  · simp [matrix.rows]
  · rw [cols_eq_headD]
    obtain ⟨k, hk⟩ := Nat.exists_eq_succ_of_ne_zero (by omega : m1.rows ≠ 0)
    rw [hk, List.range_succ_eq_map]
    simp
  · intro i hi j hj
    rw [getD_range_map _ _ hi, getD_range_map _ _ hj,
      transposeData_getD_column m2._data (by rw [← cols_eq_headD]; exact hj)]

/-- C3 witness: `{{1,2,3}} * {{1},{2},{3}}` succeeds as a 1×1 matrix; its
only cell is the dot product of the row with the column. -/
theorem c3_multiply_correct_witness :
    ∃ res : List (List Int),
      (matrix.multiply (matrix.mk ([[1,2,3]] : List (List Int)) [])
        (matrix.mk [[1],[2],[3]] [])).1 = .ok res ∧
      res.length = (matrix.mk ([[1,2,3]] : List (List Int)) []).rows ∧
      (∀ r ∈ res, r.length = (matrix.mk ([[1],[2],[3]] : List (List Int)) []).cols) ∧
      (matrix.mk res ([] : List (List (List Int)))).rows
        = (matrix.mk ([[1,2,3]] : List (List Int)) []).rows ∧
      (matrix.mk res ([] : List (List (List Int)))).cols
        = (matrix.mk ([[1],[2],[3]] : List (List Int)) []).cols ∧
      (∀ i, i < (matrix.mk ([[1,2,3]] : List (List Int)) []).rows →
        ∀ j, j < (matrix.mk ([[1],[2],[3]] : List (List Int)) []).cols →
        (res.getD i []).getD j default =
          dotVal ((matrix.mk ([[1,2,3]] : List (List Int)) [])._data.getD i [])
            (column (matrix.mk ([[1],[2],[3]] : List (List Int)) [])._data j)) :=
  c3_multiply_correct _ _ (by decide) (by decide) (by decide) (by decide) (by decide)
    (by decide)

/-- C6, counterexample: `m1 = {{1,2}}` (1×2) and `m2 = {{}}` (one row, zero
columns) have mismatched inner dimensions (`m1.cols() == 2`,
`m2.rows() == 1`), yet `multiply` succeeds with a 1×0 result — the inner
loop body never runs, so `dot` is never called and no DimensionMismatch
propagates. -/
theorem c6_counterexample :
    (matrix.multiply (matrix.mk ([[1,2]] : List (List Int)) [])
      (matrix.mk [[]] [])).1 = .ok [[]] ∧
    (matrix.mk ([[1,2]] : List (List Int)) []).cols = 2 ∧
    (matrix.mk ([[]] : List (List Int)) []).rows = 1 ∧
    0 < (matrix.mk ([[1,2]] : List (List Int)) []).rows ∧
    Rect ([[1,2]] : List (List Int)) ∧
    Rect ([[]] : List (List Int)) ∧
    CacheFresh (matrix.mk ([[]] : List (List Int)) []) := by
  decide

/-- C6 (amended): `dot` fails with DimensionMismatch carrying both lengths
exactly when the lengths differ; and the mismatch propagates unhandled out
of `multiply` for mismatched operands *provided `m2.cols() > 0`* (when
`m2.cols() == 0` the inner loop body never runs and no error is raised —
see the counterexample). -/
theorem c6_dimension_mismatch {α : Type} [Inhabited α] [Add α] [Mul α] (m1 m2 : matrix α)
    (h1 : 0 < m1.rows) (h2 : 0 < m2.rows) (hc2 : 0 < m2.cols)
    (hne : m1.cols ≠ m2.rows) (hf : CacheFresh m2) :
    (∀ v1 v2 : List α,
      (dot v1 v2 = .error (.dimMismatch v1.length v2.length) ↔ v1.length ≠ v2.length) ∧
      (∀ e : MErr, dot v1 v2 = .error e → e = .dimMismatch v1.length v2.length)) ∧
    (matrix.multiply m1 m2).1 = .error (.dimMismatch m1.cols m2.rows) := by
  constructor
  · intro v1 v2
    constructor
    · constructor
      · intro h hcon
        rw [dot_ok v1 v2 hcon] at h
        exact Except.noConfusion h
      · intro h
        unfold dot
        rw [if_pos h]
    · exact dot_error_kind v1 v2
  · have hd00 : dot (m1._data.getD 0 []) ((matrix.transpose m2).2._data.getD 0 [])
        = .error (.dimMismatch m1.cols m2.rows) := by
      have hlen1 : (m1._data.getD 0 []).length = m1.cols := rowZero_length m1 h1
      have hlen2 : ((matrix.transpose m2).2._data.getD 0 []).length = m2.rows := by
        rw [transpose_snd_data_of_fresh m2 hf]
        exact transposeData_row_length m2._data (by rw [← cols_eq_headD]; exact hc2)
      unfold dot
      rw [if_pos (by rw [hlen1, hlen2]; exact hne), hlen1, hlen2]
    obtain ⟨k1, hk1⟩ := Nat.exists_eq_succ_of_ne_zero (by omega : m1.rows ≠ 0)
    obtain ⟨k2, hk2⟩ := Nat.exists_eq_succ_of_ne_zero (by omega : m2.cols ≠ 0)
    have hrow : matrix.mulRowGo m1 m2 0 (List.range m2.cols)
        = (.error (.dimMismatch m1.cols m2.rows), ⟨m1._data, []⟩, (matrix.transpose m2).1) := by
      rw [hk2, List.range_succ_eq_map]
      exact mulRowGo_cons_err m1 m2 0 0 _ _ hd00
    unfold matrix.multiply
    rw [if_neg (by rintro (hcon | hcon) <;> omega)]
    rw [hk1, List.range_succ_eq_map]
    rw [mulGo_cons_err m1 m2 ⟨m1._data, []⟩ (matrix.transpose m2).1 m2.cols 0
      ((List.range k1).map Nat.succ) (.dimMismatch m1.cols m2.rows) hrow]

/-- C6 witness: `{{1,2}} * {{5},{6},{7}}` (inner dimensions 2 vs 3, with
`m2.cols() == 1 > 0`) fails with DimensionMismatch carrying 2 and 3. -/
theorem c6_dimension_mismatch_witness :
    (matrix.multiply (matrix.mk ([[1,2]] : List (List Int)) [])
      (matrix.mk [[5],[6],[7]] [])).1 = .error (.dimMismatch 2 3) := by
  have h := (c6_dimension_mismatch (matrix.mk ([[1,2]] : List (List Int)) [])
    (matrix.mk [[5],[6],[7]] []) (by decide) (by decide) (by decide) (by decide)
    (by decide)).2
  exact h.trans (by decide)

/-- C9, counterexample: with `m1 = {{1}}` holding a (fresh) cached transpose
and `m2 = {{}}` (one row, zero columns), `multiply` succeeds and returns
`m1` completely untouched — its cache is *not* cleared, because the inner
loop body (which performs the cache-clearing `m1[i]` access) never runs when
`m2.cols() == 0`. -/
theorem c9_counterexample :
    (matrix.multiply (matrix.mk ([[1]] : List (List Int)) [[[1]]])
      (matrix.mk [[]] [])).2.1 = matrix.mk ([[1]] : List (List Int)) [[[1]]] ∧
    (matrix.mk ([[1]] : List (List Int)) [[[1]]])._cache ≠ [] ∧
    CacheFresh (matrix.mk ([[1]] : List (List Int)) [[[1]]]) ∧
    (matrix.multiply (matrix.mk ([[1]] : List (List Int)) [[[1]]])
      (matrix.mk [[]] [])).1 = .ok [[]] ∧
    0 < (matrix.mk ([[1]] : List (List Int)) [[[1]]]).rows ∧
    0 < (matrix.mk ([[]] : List (List Int)) []).rows ∧
    (matrix.mk ([[1]] : List (List Int)) [[[1]]]).cols
      = (matrix.mk ([[]] : List (List Int)) []).rows := by
  decide

/-- C9 (amended): for operands with at least one row each, `multiply` leaves
both element stores unchanged; when `m2.cols() > 0` the inner loop runs, so
`m1`'s cache is cleared and `m2` is left with a populated transpose cache;
when `m2.cols() == 0` the loop body never executes and both operands are
returned exactly as passed (in particular `m1`'s cache is not cleared). -/
theorem c9_multiply_effects {α : Type} [Inhabited α] [Add α] [Mul α] (m1 m2 : matrix α)
    (h1 : 0 < m1.rows) (h2 : 0 < m2.rows) :
    (matrix.multiply m1 m2).2.1._data = m1._data ∧
    (matrix.multiply m1 m2).2.2._data = m2._data ∧
    (0 < m2.cols →
      (matrix.multiply m1 m2).2.1._cache = [] ∧
      (matrix.multiply m1 m2).2.2._cache ≠ []) ∧
    (m2.cols = 0 → (matrix.multiply m1 m2).2 = (m1, m2)) := by
  have hcond : ¬(m1.rows = 0 ∨ m2.rows = 0) := by rintro (h | h) <;> omega
  have hs : (matrix.multiply m1 m2).2 =
      if List.range m1.rows = [] ∨ m2.cols = 0 then (m1, m2)
      else (⟨m1._data, []⟩, (matrix.transpose m2).1) := by
    unfold matrix.multiply
    rw [if_neg hcond]
    exact mulGo_states m1 m2 m2.cols (List.range m1.rows)
  have hrne : ¬(List.range m1.rows = []) := by
    intro hcon
    have hlen := congrArg List.length hcon
    simp at hlen
    omega
  refine ⟨?_, ?_, ?_, ?_⟩
  · rw [hs]
    split
    · rfl
    · rfl
  · rw [hs]
    split
    · rfl
    · exact transpose_fst_data m2
  · intro hpos
    rw [hs, if_neg (by rintro (hcon | hcon); exacts [hrne hcon, by omega])]
    refine ⟨rfl, ?_⟩
    exact transpose_fst_cache_ne_nil m2
      (by intro hcon; rw [matrix.rows, hcon] at h2; simp at h2)
  · intro hzero
    rw [hs, if_pos (Or.inr hzero)]

/-- C9 witness: multiplying `{{1,2}}` (with a cached transpose) by the 2×1
matrix `{{3},{4}}` clears the first operand's cache. -/
theorem c9_multiply_effects_witness :
    (matrix.multiply (matrix.mk ([[1,2]] : List (List Int)) [[[1],[2]]])
      (matrix.mk [[3],[4]] [])).2.1._cache = [] := by
  have h := c9_multiply_effects (matrix.mk ([[1,2]] : List (List Int)) [[[1],[2]]])
    (matrix.mk [[3],[4]] []) (by decide) (by decide)
  exact (h.2.2.1 (by decide)).1

theorem ne_eq_true_iff {α : Type} [Inhabited α] [DecidableEq α] (a b : matrix α) :
    matrix.ne a b = true ↔
      (a.rows ≠ b.rows ∨ a.cols ≠ b.cols) ∨
      ∃ i, i < a.rows ∧ ∃ j, j < a.cols ∧
        (a._data.getD i []).getD j default ≠ (b._data.getD i []).getD j default := by
  unfold matrix.ne
  by_cases hsh : a.rows ≠ b.rows ∨ a.cols ≠ b.cols
  · rw [if_pos hsh]
    simp [hsh]
  · rw [if_neg hsh]
    simp [hsh, List.any_eq_true, List.mem_range]

/-- C8: `operator==` holds exactly when the shapes agree and every
corresponding element compares equal; `operator!=` is its boolean negation;
and both comparisons depend only on the element stores — replacing either
operand's cache by anything changes neither result (and the embedding of
the comparison takes no state and returns none, since the source reads
`_data` directly and never touches `_cache`). -/
theorem c8_equality {α : Type} [Inhabited α] [DecidableEq α] (a b : matrix α)
    (hra : Rect a._data) (hrb : Rect b._data) :
    (matrix.eq a b = true ↔
      a.rows = b.rows ∧ a.cols = b.cols ∧
      ∀ i, i < a.rows → ∀ j, j < a.cols →
        (a._data.getD i []).getD j default = (b._data.getD i []).getD j default) ∧
    (∀ x y : matrix α, matrix.ne x y = !matrix.eq x y) ∧
    (∀ c c' : List (List (List α)),
      matrix.eq (matrix.mk a._data c) (matrix.mk b._data c') = matrix.eq a b ∧
      matrix.ne (matrix.mk a._data c) (matrix.mk b._data c') = matrix.ne a b) := by
  refine ⟨?_, ?_, ?_⟩
  · constructor
    · intro h
      have hne : ¬(matrix.ne a b = true) := by
        intro hcon
        rw [show matrix.eq a b = !matrix.ne a b from rfl, hcon] at h
        simp at h
      rw [ne_eq_true_iff] at hne
      push_neg at hne
      obtain ⟨⟨hr, hc⟩, hcells⟩ := hne
      exact ⟨hr, hc, fun i hi j hj => hcells i hi j hj⟩
    · rintro ⟨hr, hc, hcells⟩
      rw [show matrix.eq a b = !matrix.ne a b from rfl, Bool.not_eq_true']
      rw [Bool.eq_false_iff]
      intro hcon
      rw [ne_eq_true_iff] at hcon
      rcases hcon with (hsh | hsh) | ⟨i, hi, j, hj, hcell⟩
      · exact hsh hr
      · exact hsh hc
      · exact hcell (hcells i hi j hj)
  · intro x y
    rw [show matrix.eq x y = !matrix.ne x y from rfl, Bool.not_not]
  · intro c c'
    exact ⟨rfl, rfl⟩

/-- C8 witness: two rectangular matrices with the same elements but
different caches compare equal. -/
theorem c8_equality_witness :
    matrix.eq (matrix.mk ([[1,2]] : List (List Int)) [])
      (matrix.mk [[1,2]] [[[1],[2]]]) = true := by
  have h := c8_equality (matrix.mk ([[1,2]] : List (List Int)) [])
    (matrix.mk [[1,2]] [[[1],[2]]]) (by decide) (by decide)
  exact h.1.mpr ⟨by decide, by decide, by decide⟩

/-- The output format claim C10 describes, modelled from the claim's words
for comparison: for each row, the elements joined by single *separating*
spaces, followed by a line terminator. -/
def printSpec {α : Type} (render : α → String) (m : matrix α) : String :=
  String.join (m._data.map (fun row => String.intercalate " " (row.map render) ++ "\n"))

theorem string_foldl_append (l : List String) (acc : String) :
    l.foldl (fun a s => a ++ s) acc = acc ++ l.foldl (fun a s => a ++ s) "" := by
  induction l generalizing acc with
  | nil => rw [List.foldl_nil, List.foldl_nil, String.append_empty]
  | cons x xs ih =>
    rw [List.foldl_cons, List.foldl_cons, ih (acc ++ x), ih ("" ++ x),
      String.empty_append, String.append_assoc]

theorem string_join_cons (x : String) (l : List String) :
    String.join (x :: l) = x ++ String.join l := by
  unfold String.join
  rw [List.foldl_cons, string_foldl_append l ("" ++ x), String.empty_append]

theorem printRowStr_eq {α : Type} (render : α → String) (row : List α) (acc : String) :
    matrix.printRowStr render row acc
      = acc ++ String.join (row.map (fun x => render x ++ " ")) := by
  induction row generalizing acc with
  | nil =>
    rw [show matrix.printRowStr render [] acc = acc from rfl]
    rw [show String.join (List.map (fun x => render x ++ " ") []) = "" from rfl,
      String.append_empty]
  | cons x xs ih =>
    rw [show matrix.printRowStr render (x :: xs) acc
      = matrix.printRowStr render xs (acc ++ render x ++ " ") from rfl, ih,
      List.map_cons, string_join_cons]
    simp [String.append_assoc]

theorem printStr_eq {α : Type} (render : α → String) (d : List (List α)) (acc : String) :
    d.foldl (fun a row => matrix.printRowStr render row a ++ "\n") acc =
      acc ++ String.join (d.map (fun row =>
        String.join (row.map (fun x => render x ++ " ")) ++ "\n")) := by
  induction d generalizing acc with
  | nil =>
    rw [List.foldl_nil, show String.join (List.map _ ([] : List (List α))) = "" from rfl,
      String.append_empty]
  | cons row rows ih =>
    rw [List.foldl_cons, ih, printRowStr_eq, List.map_cons, string_join_cons]
    simp [String.append_assoc]

/-- C10, counterexample: printing `{{"1","2"}}` produces `"1 2 \n"` — every
element is followed by a space, so the row ends in a trailing space before
the line terminator — which differs from the claimed output
`"1 2\n"` (elements merely *separated* by single spaces). -/
theorem c10_counterexample :
    matrix.printStr (fun s : String => s) (matrix.mk [["1", "2"]] []) "" = "1 2 \n" ∧
    printSpec (fun s : String => s) (matrix.mk [["1", "2"]] []) = "1 2\n" ∧
    matrix.printStr (fun s : String => s) (matrix.mk [["1", "2"]] []) "" ≠
      printSpec (fun s : String => s) (matrix.mk [["1", "2"]] []) := by
  refine ⟨by decide, by decide, by decide⟩

/-- C10 (amended): printing produces, for each row in order, each element
followed by a single space (so elements are space-separated but each row
also carries a trailing space), then a line terminator; printing an empty
matrix produces nothing. -/
theorem c10_print {α : Type} (render : α → String) (m : matrix α) :
    matrix.printStr render m "" =
      String.join (m._data.map (fun row =>
        String.join (row.map (fun x => render x ++ " ")) ++ "\n")) ∧
    (m._data = [] → matrix.printStr render m "" = "") := by
  have hmain : matrix.printStr render m "" =
      String.join (m._data.map (fun row =>
        String.join (row.map (fun x => render x ++ " ")) ++ "\n")) := by
    rw [show matrix.printStr render m ""
      = m._data.foldl (fun a row => matrix.printRowStr render row a ++ "\n") "" from rfl,
      printStr_eq, String.empty_append]
  refine ⟨hmain, ?_⟩
  intro hempty
  rw [hmain, hempty]
  rfl

/-- C10 witness: printing the empty matrix produces the empty string. -/
theorem c10_print_witness :
    matrix.printStr (fun s : String => s) (matrix.mk ([] : List (List String)) []) "" = "" :=
  (c10_print (fun s : String => s) (matrix.mk [] [])).2 rfl

end codesample

